import Mathlib

/-!
Verification of the screenshot-capture and response-reconciliation pipeline of the
Visual Review Extractor (src/index.js).

The development shallowly embeds the pipeline:

* `JsVal` models JavaScript/JSON runtime values (including `undefined`, which
  property access can produce).
* `parseStep` / `jsonParseChars` model `JSON.parse` as a fuel-indexed
  shift-reduce parser over the character list (strict grammar, whole-input
  consumption, trailing whitespace allowed).
* `stripFencesAux` / `trimChars` / `braceMatch` / `reconcile` model the
  response-cleaning chain of `analyzeScreenshots` (lines 104-125): the global
  regex replace of code-fence markers, `String.prototype.trim`, the greedy
  first-brace-to-last-brace fallback, and the empty-review-list fallback.
* `extractReviews`, `captureLoop`, `clearScreenshotsFolder`, `apiReviews`
  model the browser pipeline (lines 132-241) as a function of an environment
  `Env` that injects the outcome of every awaited external call; the run
  produces an event trace (`Event`), the working-directory contents, and the
  in-memory frame list, which the theorems quantify over.
-/

/-- JavaScript runtime values as far as the pipeline observes them.  JSON
numbers are kept as their source lexeme (the parse is deterministic, so two
parses of the same text yield the same lexeme). -/
inductive JsVal where
  | undef
  | null
  | bool (b : Bool)
  | num (lexeme : String)
  | str (s : String)
  | arr (elems : List JsVal)
  | obj (fields : List (String × JsVal))
deriving Repr

/-- JSON insignificant whitespace (RFC 8259: space, tab, line feed, carriage return). -/
def isWsChar : Char → Bool
  | ' ' | '\t' | '\n' | '\r' => true
  | _ => false

/-- Value of a hexadecimal digit, for `\uXXXX` escapes. -/
def hexVal (c : Char) : Option Nat :=
  if c.isDigit then some (c.toNat - 48)
  else if 'a' ≤ c && c ≤ 'f' then some (c.toNat - 87)
  else if 'A' ≤ c && c ≤ 'F' then some (c.toNat - 55)
  else none

/-- Single-character JSON string escapes. -/
def escMap : Char → Option Char
  | 't' => some '\t'
  | 'n' => some '\n'
  | 'r' => some '\r'
  | 'b' => some '\x08'
  | 'f' => some '\x0c'
  | '/' => some '/'
  | '\\' => some '\\'
  | '\x22' => some '\x22'
  | _ => none

/-- Parse the body of a JSON string (after the opening quote); returns the
decoded characters and the remainder after the closing quote. -/
def parseStrChars : List Char → Option (List Char × List Char)
  | [] => none
  | '\x22' :: rest => some ([], rest)
  | '\\' :: 'u' :: hx1 :: hx2 :: hx3 :: hx4 :: rest =>
    match hexVal hx1, hexVal hx2, hexVal hx3, hexVal hx4 with
    | some x, some y, some z, some w =>
      (parseStrChars rest).map
        (fun p => (Char.ofNat (((x * 16 + y) * 16 + z) * 16 + w) :: p.1, p.2))
    | _, _, _, _ => none
  | '\\' :: e :: rest =>
    match escMap e with
    | some c => (parseStrChars rest).map (fun p => (c :: p.1, p.2))
    | none => none
  | c :: rest => (parseStrChars rest).map (fun p => (c :: p.1, p.2))

def spanDigits (cs : List Char) : List Char × List Char :=
  (cs.takeWhile Char.isDigit, cs.dropWhile Char.isDigit)

/-- JSON number fraction part: empty, or a dot followed by at least one digit. -/
def parseFrac (cs : List Char) : Option (List Char × List Char) :=
  match cs with
  | '.' :: rest =>
    let p := spanDigits rest
    if p.1.isEmpty then none else some ('.' :: p.1, p.2)
  | _ => some ([], cs)

/-- JSON number exponent part: empty, or e/E, optional sign, at least one digit. -/
def parseExp (cs : List Char) : Option (List Char × List Char) :=
  match cs with
  | c :: rest =>
    if c == 'e' || c == 'E' then
      match rest with
      | s :: rest2 =>
        if s == '+' || s == '-' then
          let p := spanDigits rest2
          if p.1.isEmpty then none else some (c :: s :: p.1, p.2)
        else
          let p := spanDigits rest
          if p.1.isEmpty then none else some (c :: p.1, p.2)
      | [] => none
    else some ([], cs)
  | [] => some ([], [])

def parseFracExp (cs : List Char) : Option (List Char × List Char) :=
  match parseFrac cs with
  | none => none
  | some fp =>
    match parseExp fp.2 with
    | none => none
    | some ep => some (fp.1 ++ ep.1, ep.2)

/-- Unsigned JSON integer part (a lone `0`, or a nonzero digit followed by digits),
then fraction and exponent. -/
def parseNumAfterSign (cs : List Char) : Option (List Char × List Char) :=
  match cs with
  | '0' :: rest => (parseFracExp rest).map (fun p => ('0' :: p.1, p.2))
  | c :: rest =>
    if c.isDigit then
      let d := spanDigits rest
      (parseFracExp d.2).map (fun p => (c :: d.1 ++ p.1, p.2))
    else none
  | [] => none

/-- A JSON number token, returned as its lexeme. -/
def parseNumber (cs : List Char) : Option (List Char × List Char) :=
  match cs with
  | '-' :: rest => (parseNumAfterSign rest).map (fun p => ('-' :: p.1, p.2))
  | _ => parseNumAfterSign cs

/-- Partially built composite values of the JSON parser stack. -/
inductive PFrame where
  | arr (elems : List JsVal)
  | obj (fields : List (String × JsVal)) (pendingKey : String)

/-- Parser mode: expecting a value, or resolving a just-completed value
against the stack. -/
inductive PMode where
  | value
  | afterVal (v : JsVal)

/-- One fuel-indexed shift-reduce loop implementing the strict JSON grammar of
`JSON.parse`.  Every recursive call consumes at least one input character, so
`length + 1` fuel always suffices. -/
def parseStep : Nat → PMode → List Char → List PFrame → Option (JsVal × List Char)
  | 0, _, _, _ => none
  | f + 1, PMode.value, cs, stack =>
    match cs.dropWhile isWsChar with
    | 'n' :: 'u' :: 'l' :: 'l' :: rest => parseStep f (PMode.afterVal JsVal.null) rest stack
    | 't' :: 'r' :: 'u' :: 'e' :: rest =>
      parseStep f (PMode.afterVal (JsVal.bool true)) rest stack
    | 'f' :: 'a' :: 'l' :: 's' :: 'e' :: rest =>
      parseStep f (PMode.afterVal (JsVal.bool false)) rest stack
    | '\x22' :: rest =>
      match parseStrChars rest with
      | some p => parseStep f (PMode.afterVal (JsVal.str (String.mk p.1))) p.2 stack
      | none => none
    | '[' :: rest =>
      match rest.dropWhile isWsChar with
      | ']' :: rest2 => parseStep f (PMode.afterVal (JsVal.arr [])) rest2 stack
      | rest2 => parseStep f PMode.value rest2 (PFrame.arr [] :: stack)
    | '\x7b' :: rest =>
      match rest.dropWhile isWsChar with
      | '\x7d' :: rest2 => parseStep f (PMode.afterVal (JsVal.obj [])) rest2 stack
      | '\x22' :: rest2 =>
        match parseStrChars rest2 with
        | some p =>
          match p.2.dropWhile isWsChar with
          | ':' :: rest3 => parseStep f PMode.value rest3 (PFrame.obj [] (String.mk p.1) :: stack)
          | _ => none
        | none => none
      | _ => none
    | other =>
      match parseNumber other with
      | some p => parseStep f (PMode.afterVal (JsVal.num (String.mk p.1))) p.2 stack
      | none => none
  | f + 1, PMode.afterVal v, cs, stack =>
    match stack with
    | [] => some (v, cs)
    | PFrame.arr elems :: stk =>
      match cs.dropWhile isWsChar with
      | ',' :: rest => parseStep f PMode.value rest (PFrame.arr (elems ++ [v]) :: stk)
      | ']' :: rest => parseStep f (PMode.afterVal (JsVal.arr (elems ++ [v]))) rest stk
      | _ => none
    | PFrame.obj fields key :: stk =>
      match cs.dropWhile isWsChar with
      | ',' :: rest =>
        match rest.dropWhile isWsChar with
        | '\x22' :: rest2 =>
          match parseStrChars rest2 with
          | some p =>
            match p.2.dropWhile isWsChar with
            | ':' :: rest3 =>
              parseStep f PMode.value rest3
                (PFrame.obj (fields ++ [(key, v)]) (String.mk p.1) :: stk)
            | _ => none
          | none => none
        | _ => none
      | '\x7d' :: rest =>
        parseStep f (PMode.afterVal (JsVal.obj (fields ++ [(key, v)]))) rest stk
      | _ => none

/-- Model of `JSON.parse` on a character list: one strict value, nothing but
whitespace after it. -/
def jsonParseChars (cs : List Char) : Option JsVal :=
  match parseStep (cs.length + 1) PMode.value cs [] with
  | some p => if (p.2.dropWhile isWsChar).isEmpty then some p.1 else none
  | none => none

/-! ## Response cleaning (src/index.js lines 104-124) -/

/-- The literal `\x60\x60\x60json` ("```json") matched by the first regex alternative. -/
def fenceOpen : List Char := ['\x60', '\x60', '\x60', 'j', 's', 'o', 'n']

/-- The literal newline-then-three-backticks matched by the second alternative
when its optional newline is present. -/
def fenceNl : List Char := ['\n', '\x60', '\x60', '\x60']

/-- Three backticks, the second alternative with the optional newline absent. -/
def fencePlain : List Char := ['\x60', '\x60', '\x60']

/-- Global replace of `/\x60\x60\x60json\n?|\n?\x60\x60\x60/g` by the empty string:
scan left to right, at each position try the first alternative (with its greedy
optional newline) then the second, otherwise keep the character.  Fuel-indexed;
each step consumes at least one character, so `length` fuel suffices. -/
def stripFencesAux : Nat → List Char → List Char
  | 0, cs => cs
  | f + 1, cs =>
    if fenceOpen.isPrefixOf cs then
      match cs.drop 7 with
      | '\n' :: rest2 => stripFencesAux f rest2
      | rest => stripFencesAux f rest
    else if fenceNl.isPrefixOf cs then stripFencesAux f (cs.drop 4)
    else if fencePlain.isPrefixOf cs then stripFencesAux f (cs.drop 3)
    else
      match cs with
      | [] => []
      | c :: rest => c :: stripFencesAux f rest

def stripFences (cs : List Char) : List Char := stripFencesAux cs.length cs

/-- Whitespace removed by `String.prototype.trim` (ASCII whitespace plus
no-break space and BOM; the exotic Unicode space characters never occur in the
inputs considered here). -/
def isTrimWs : Char → Bool
  | ' ' | '\t' | '\n' | '\r' | '\x0b' | '\x0c' | ' ' | '﻿' => true
  | _ => false

def trimChars (cs : List Char) : List Char :=
  ((cs.dropWhile isTrimWs).reverse.dropWhile isTrimWs).reverse

/-- Line 104: the cleaning `content.replace(/\x60\x60\x60json\n?|\n?\x60\x60\x60/g, empty).trim()`. -/
def cleanContent (content : String) : List Char :=
  trimChars (stripFences content.data)

/-- The match of `/\x7b[\s\S]*\x7d/` (line 114): from the first `\x7b` of the text,
greedily, to the last `\x7d`; `none` when no such span exists. -/
def braceMatch (cs : List Char) : Option (List Char) :=
  let t := cs.dropWhile (fun c => !(c == '\x7b'))
  let u := (t.reverse.dropWhile (fun c => !(c == '\x7d'))).reverse
  if u.isEmpty then none else some u

/-- The object `\x7b "reviews": [] \x7d`, the value returned on every unrecoverable path. -/
def emptyReviewsObj : JsVal := JsVal.obj [("reviews", JsVal.arr [])]

/-- The response-reconciliation chain of `analyzeScreenshots` (lines 104-124):
clean, strict-parse, fall back to the greedy brace substring, fall back to the
empty review list.  Total: no input makes it throw. -/
def reconcile (content : String) : JsVal :=
  let cleaned := cleanContent content
  match jsonParseChars cleaned with
  | some v => v
  | none =>
    match braceMatch cleaned with
    | some sub =>
      match jsonParseChars sub with
      | some v => v
      | none => emptyReviewsObj
    | none => emptyReviewsObj

/-- Model of `analyzeScreenshots` (lines 50-130) as observed from the pipeline: the
whole OpenAI call sits in a `try` whose `catch` returns `\x7b reviews: [] \x7d`
(lines 126-129), so a failed provider call yields the empty review object and
a successful call yields the reconciliation of the reply text.  `apiReply`
is `none` when the provider call (or reading the reply) threw. -/
def analyzeScreenshots (apiReply : Option String) : JsVal :=
  match apiReply with
  | none => emptyReviewsObj
  | some content => reconcile content

/-! ## Pipeline model (src/index.js lines 35-43, 132-241) -/

/-- A thrown JavaScript error, as far as the route handler observes it
(`error.name` for the 504 check, `error.message` for the 500 detail). -/
structure JsError where
  name : String
  message : String
deriving Repr, DecidableEq

/-- The six DOM size properties read by the height probe (lines 158-167). -/
structure DomMetrics where
  bodyScrollHeight : Nat
  docScrollHeight : Nat
  bodyOffsetHeight : Nat
  docOffsetHeight : Nat
  bodyClientHeight : Nat
  docClientHeight : Nat
deriving Repr, DecidableEq

/-- A page whose six candidate heights agree. -/
def uniformMetrics (h : Nat) : DomMetrics := ⟨h, h, h, h, h, h⟩

/-- The `Math.max` over the six candidates, exactly in source order (lines 159-166). -/
def measuredBodyHeight (m : DomMetrics) : Nat :=
  max m.bodyScrollHeight (max m.docScrollHeight (max m.bodyOffsetHeight
    (max m.docOffsetHeight (max m.bodyClientHeight m.docClientHeight))))

/-- Constant `viewportHeight = 1000` (line 151). -/
def viewportHeight : Nat := 1000

/-- Constant `viewportWidth = 1920` (line 152). -/
def viewportWidth : Nat := 1920

/-- Model of `Math.ceil(bodyHeight / viewportHeight)` (line 169): both operands are
nonnegative integers, so the float ceiling equals the integer ceiling
division; `numScreenshots_eq_ceil` below relates this to `⌈h / v⌉` over `ℚ`. -/
def numScreenshots (bodyHeight : Nat) : Nat :=
  (bodyHeight + viewportHeight - 1) / viewportHeight

/-- The frame file name, `screenshot_` then the index then `.png` (line 188). -/
def frameName (i : Nat) : String := "screenshot_" ++ toString i ++ ".png"

/-- Observable actions of one pipeline run, in execution order. -/
inductive Event where
  | launched
  | gotoPage (url : String)
  | waitForBody
  | antiBotPatch
  | setViewport (w : Nat) (h : Nat)
  | initialScroll
  | waitMs (ms : Nat)
  | measureHeight
  | clearFolder
  | makeDir
  | scrollTo (y : Nat)
  | screenshot (i : Nat) (fullPage : Bool)
  | saveFrame (path : String)
  | analyzeCall (numImages : Nat)
  | saveErrorDump
  | closeBrowser
deriving Repr, DecidableEq

/-- One captured frame: loop index, scroll offset at capture time, and the
file name it is persisted under. -/
structure Frame where
  idx : Nat
  yOffset : Nat
  path : String
deriving Repr, DecidableEq

/-- Run state threaded through the pipeline: the event trace, the contents of
the screenshots working directory, and the in-memory frame list
(`screenshotsBase64`). -/
structure St where
  events : List Event
  dirFiles : List String
  frames : List Frame
deriving Repr, DecidableEq

def emit (e : Event) (st : St) : St :=
  { st with events := st.events ++ [e] }

/-- Environment of one run: the outcome of every awaited external call.  A
`some e` field makes that await reject with `e`; per-frame fields are indexed
by the loop counter.  `apiReply` is the vision-model reply text (`none` when
the provider call fails), `clearOk` whether the directory clear succeeds
(its failure is swallowed by `clearScreenshotsFolder`'s own catch). -/
structure Env where
  launchErr : Option JsError
  newPageErr : Option JsError
  gotoErr : Option JsError
  waitBodyErr : Option JsError
  antiBotErr : Option JsError
  viewportErr : Option JsError
  scrollEvalErr : Option JsError
  measureErr : Option JsError
  metrics : DomMetrics
  clearOk : Bool
  mkdirErr : Option JsError
  loopScrollErr : Nat → Option JsError
  shotErr : Nat → Option JsError
  saveErr : Nat → Option JsError
  apiReply : Option String
  dumpWriteErr : Option JsError
  initialDirFiles : List String

/-- An environment in which every external call succeeds, the page height is
0, the provider call fails, and the working directory starts empty. -/
def baseEnv : Env :=
  ⟨none, none, none, none, none, none, none, none, uniformMetrics 0, true, none,
    fun _ => none, fun _ => none, fun _ => none, none, none, []⟩

/-- Model of `clearScreenshotsFolder` (lines 35-43): empties the directory, but any
filesystem error is caught and only logged, leaving the directory as it was. -/
def clearScreenshotsFolder (ok : Bool) (st : St) : St :=
  { st with events := st.events ++ [Event.clearFolder],
            dirFiles := if ok then [] else st.dirFiles }

/-- Model of `fs.writeFile` into the working directory (overwrites on name collision). -/
def writeFileToDir (name : String) (st : St) : St :=
  { st with dirFiles := if name ∈ st.dirFiles then st.dirFiles else st.dirFiles ++ [name] }

/-- Property access `x.reviews` (line 195): a TypeError on `null`/`undefined`,
the field (or `undefined`) on an object, `undefined` on any other value. -/
def lookupField (fs : List (String × JsVal)) (key : String) : JsVal :=
  match fs.reverse.find? (fun p => p.1 == key) with
  | some p => p.2
  | none => JsVal.undef

def typeErrorNull : JsError :=
  ⟨"TypeError", "Cannot read properties of null (reading 'reviews')"⟩

def typeErrorUndef : JsError :=
  ⟨"TypeError", "Cannot read properties of undefined (reading 'reviews')"⟩

def getReviewsField : JsVal → Except JsError JsVal
  | JsVal.null => Except.error typeErrorNull
  | JsVal.undef => Except.error typeErrorUndef
  | JsVal.obj fs => Except.ok (lookupField fs "reviews")
  | _ => Except.ok JsVal.undef

/-- Model of `Array.prototype.concat`: spreads an array argument, appends any other
value (including `undefined`) as a single element. -/
def jsConcat (a : List JsVal) (v : JsVal) : List JsVal :=
  match v with
  | JsVal.arr xs => a ++ xs
  | x => a ++ [x]

/-- The value `extractReviews` resolves with (line 204). -/
structure ExtractionResult where
  reviews : List JsVal
  errorDetails : Option JsError

/-- The scroll/wait/capture/persist loop (lines 178-191), one iteration per
remaining count `k`, current index `i`.  Returns the first thrown error, if
any, together with the state reached. -/
def captureLoop (env : Env) : Nat → Nat → St → Option JsError × St
  | _, 0, st => (none, st)
  | i, k + 1, st =>
    let st1 := emit (Event.scrollTo (i * viewportHeight)) st
    match env.loopScrollErr i with
    | some e => (some e, st1)
    | none =>
      let st2 := emit (Event.waitMs 2000) st1
      let st3 := emit (Event.screenshot i false) st2
      match env.shotErr i with
      | some e => (some e, st3)
      | none =>
        let st4 := { st3 with frames :=
          st3.frames ++ [⟨i, i * viewportHeight, frameName i⟩] }
        match env.saveErr i with
        | some e => (some e, st4)
        | none =>
          let st5 := writeFileToDir (frameName i) (emit (Event.saveFrame (frameName i)) st4)
          captureLoop env (i + 1) k st5

/-- The inner analysis `try`/`catch` (lines 193-202): call the extractor,
read `.reviews` off its result and concatenate; on a throw, record the error,
persist the dump (a failure of that write escapes to the outer `catch`), and
resolve with the reviews gathered so far (none). -/
def analysisStage (env : Env) (stL : St) : Except JsError ExtractionResult × St :=
  let stA := emit (Event.analyzeCall stL.frames.length) stL
  match getReviewsField (analyzeScreenshots env.apiReply) with
  | Except.ok v => (Except.ok ⟨jsConcat [] v, none⟩, stA)
  | Except.error e =>
    let stD := emit Event.saveErrorDump stA
    match env.dumpWriteErr with
    | some e2 => (Except.error e2, stD)
    | none =>
      (Except.ok ⟨[], some e⟩, writeFileToDir "openai_error_response.txt" stD)

/-- Lines 169-204: frame count, directory clear and recreate, capture loop,
analysis stage. -/
def afterMeasure (env : Env) (st6 : St) : Except JsError ExtractionResult × St :=
  let n := numScreenshots (measuredBodyHeight env.metrics)
  let st7 := emit Event.makeDir (clearScreenshotsFolder env.clearOk st6)
  match env.mkdirErr with
  | some e => (Except.error e, st7)
  | none =>
    match captureLoop env 0 n st7 with
    | (some e, stL) => (Except.error e, stL)
    | (none, stL) => analysisStage env stL

/-- The body of the outer `try` of `extractReviews` (lines 141-204): the
renderer steps in source order, then `afterMeasure`. -/
def tryBody (env : Env) (url : String) (st0 : St) : Except JsError ExtractionResult × St :=
  let st1 := emit (Event.gotoPage url) st0
  match env.gotoErr with
  | some e => (Except.error e, st1)
  | none =>
    let st2 := emit Event.waitForBody st1
    match env.waitBodyErr with
    | some e => (Except.error e, st2)
    | none =>
      let st3 := emit Event.antiBotPatch st2
      match env.antiBotErr with
      | some e => (Except.error e, st3)
      | none =>
        let st4 := emit (Event.setViewport viewportWidth viewportHeight) st3
        match env.viewportErr with
        | some e => (Except.error e, st4)
        | none =>
          let st5 := emit (Event.waitMs 5000) (emit Event.initialScroll st4)
          match env.scrollEvalErr with
          | some e => (Except.error e, st5)
          | none =>
            let st6 := emit Event.measureHeight st5
            match env.measureErr with
            | some e => (Except.error e, st6)
            | none => afterMeasure env st6

/-- Model of `extractReviews` (lines 132-212).  `chromium.launch()` and
`browser.newPage()` (lines 134-135) run before the `try`, so a failure there
skips the `finally`; every other exit path appends `closeBrowser`. -/
def extractReviews (env : Env) (url : String) : Except JsError ExtractionResult × St :=
  match env.launchErr with
  | some e => (Except.error e, ⟨[], env.initialDirFiles, []⟩)
  | none =>
    let st0 : St := ⟨[Event.launched], env.initialDirFiles, []⟩
    match env.newPageErr with
    | some e => (Except.error e, st0)
    | none =>
      let r := tryBody env url st0
      (r.1, emit Event.closeBrowser r.2)

/-- Wire responses of `GET /api/reviews` (lines 214-241). -/
inductive ApiResponse where
  | success (reviewsCount : Nat) (reviews : List JsVal) (errorDetails : Option JsError)
  | missingParam
  | timeout
  | failure (details : String)

def ApiResponse.status : ApiResponse → Nat
  | ApiResponse.success _ _ _ => 200
  | ApiResponse.missingParam => 400
  | ApiResponse.timeout => 504
  | ApiResponse.failure _ => 500

/-- The `/api/reviews` handler (lines 214-241): `!page` (missing or empty)
gives 400; a resolved pipeline gives the success JSON with
`reviews_count`, `reviews` and `errorDetails || null`; a rejected pipeline
gives 504 when `error.name === 'TimeoutError'` and otherwise 500 with
`error.message` as detail. -/
def apiReviews (pageParam : Option String) (env : Env) : ApiResponse × St :=
  match pageParam with
  | none => (ApiResponse.missingParam, ⟨[], env.initialDirFiles, []⟩)
  | some u =>
    if u = "" then (ApiResponse.missingParam, ⟨[], env.initialDirFiles, []⟩)
    else
      match extractReviews env u with
      | (Except.ok r, st) =>
        (ApiResponse.success r.reviews.length r.reviews r.errorDetails, st)
      | (Except.error e, st) =>
        if e.name = "TimeoutError" then (ApiResponse.timeout, st)
        else (ApiResponse.failure e.message, st)

/-! ## Closed forms and helper lemmas -/

/-- The four events of one loop iteration, in source order (lines 178-191). -/
def frameEvents (i : Nat) : List Event :=
  [Event.scrollTo (i * viewportHeight), Event.waitMs 2000,
    Event.screenshot i false, Event.saveFrame (frameName i)]

/-- The full event trace of a loop over `n` frames. -/
def loopEvents (n : Nat) : List Event := ((List.range n).map frameEvents).flatten

/-- The frames captured by a loop over `n` frames. -/
def loopFrames (n : Nat) : List Frame :=
  (List.range n).map (fun i => ⟨i, i * viewportHeight, frameName i⟩)

/-- Directory evolution of the loop starting from contents `d` at index `i`
for `k` more frames. -/
def loopDirFold : List String → Nat → Nat → List String
  | d, _, 0 => d
  | d, i, k + 1 =>
    loopDirFold (if frameName i ∈ d then d else d ++ [frameName i]) (i + 1) k

/-- The events before the capture loop on a fully successful run. -/
def preEvents (u : String) : List Event :=
  [Event.launched, Event.gotoPage u, Event.waitForBody, Event.antiBotPatch,
    Event.setViewport viewportWidth viewportHeight, Event.initialScroll,
    Event.waitMs 5000, Event.measureHeight, Event.clearFolder, Event.makeDir]

def isClose : Event → Bool
  | Event.launched => false
  | Event.gotoPage _ => false
  | Event.waitForBody => false
  | Event.antiBotPatch => false
  | Event.setViewport _ _ => false
  | Event.initialScroll => false
  | Event.waitMs _ => false
  | Event.measureHeight => false
  | Event.clearFolder => false
  | Event.makeDir => false
  | Event.scrollTo _ => false
  | Event.screenshot _ _ => false
  | Event.saveFrame _ => false
  | Event.analyzeCall _ => false
  | Event.saveErrorDump => false
  | Event.closeBrowser => true

/-- Number of `closeBrowser` events in a trace. -/
def countClose : List Event → Nat
  | [] => 0
  | e :: rest => (if isClose e then 1 else 0) + countClose rest

def sampleReviewJson : String :=
  "\x7b\x22reviews\x22: [\x7b\x22title\x22: \x22Great\x22, \x22body\x22: \x22Works well\x22, \x22rating\x22: 5, \x22reviewer\x22: \x22A\x22\x7d]\x7d"

def sampleReviewVal : JsVal :=
  JsVal.obj [("reviews", JsVal.arr [JsVal.obj [("title", JsVal.str "Great"),
    ("body", JsVal.str "Works well"), ("rating", JsVal.num "5"),
    ("reviewer", JsVal.str "A")]])]

/-! ## Sanity checks on concrete inputs -/

example : jsonParseChars "null".data = some JsVal.null := rfl
example : jsonParseChars "".data = none := rfl
example : jsonParseChars " \x7b\x22a\x22: [1, true]\x7d ".data =
    some (JsVal.obj [("a", JsVal.arr [JsVal.num "1", JsVal.bool true])]) := rfl
example : jsonParseChars "\x7b\x22a\x22: 1".data = none := rfl
example : jsonParseChars "\x7b\x7d x".data = none := rfl

example : reconcile "null" = JsVal.null := rfl
example : reconcile "" = emptyReviewsObj := rfl
example : reconcile "\x60\x60\x60json\n\x7b\x22reviews\x22: []\x7d\n\x60\x60\x60" =
    JsVal.obj [("reviews", JsVal.arr [])] := rfl
example : reconcile "Here you go:\n\x7b\x22reviews\x22: [5]\x7d" =
    JsVal.obj [("reviews", JsVal.arr [JsVal.num "5"])] := rfl
example : reconcile "no json here" = emptyReviewsObj := rfl

lemma captureLoop_ok (env : Env) (hs : ∀ j, env.loopScrollErr j = none)
    (hh : ∀ j, env.shotErr j = none) (hw : ∀ j, env.saveErr j = none) :
    ∀ (k i : Nat) (st : St),
      captureLoop env i k st =
        (none,
          ⟨st.events ++ ((List.range' i k).map frameEvents).flatten,
            loopDirFold st.dirFiles i k,
            st.frames ++ (List.range' i k).map (fun t => ⟨t, t * viewportHeight, frameName t⟩)⟩) := by
  intro k
  induction k with
  | zero =>
    intro i st
    simp [captureLoop, loopDirFold]
  | succ k ih =>
    intro i st
    simp only [captureLoop, hs, hh, hw, ih]
    simp [emit, writeFileToDir, loopDirFold, List.range'_succ, frameEvents,
      List.append_assoc]

lemma measuredBodyHeight_uniform (h : Nat) : measuredBodyHeight (uniformMetrics h) = h := by
  simp [measuredBodyHeight, uniformMetrics]

set_option maxRecDepth 4000 in
/-- The value `Math.ceil(h / 1000)` really is the rational ceiling of `h / 1000`. -/
lemma numScreenshots_eq_ceil (h : Nat) :
    (numScreenshots h : ℤ) = ⌈(h : ℚ) / (viewportHeight : ℚ)⌉ := by
  have h1000 : (0 : ℚ) < 1000 := by norm_num
  have hq := Nat.div_add_mod (h + 999) 1000
  have hr : (h + 999) % 1000 < 1000 := Nat.mod_lt _ (by norm_num)
  have he : h + 1000 - 1 = h + 999 := by omega
  unfold numScreenshots viewportHeight
  rw [he]
  have hcast : ((1000 : Nat) : ℚ) = 1000 := by norm_num
  rw [hcast]
  symm
  rw [Int.ceil_eq_iff]
  have hqQ := congrArg (fun n : ℕ => (n : ℚ)) hq
  push_cast at hqQ
  have hrQ : (((h + 999) % 1000 : ℕ) : ℚ) < 1000 := by exact_mod_cast hr
  have hr9 : (h + 999) % 1000 ≤ 999 := by omega
  have hr9Q : (((h + 999) % 1000 : ℕ) : ℚ) ≤ 999 := by exact_mod_cast hr9
  constructor
  · rw [lt_div_iff₀ h1000]
    rw [Int.cast_natCast]
    linarith [hqQ, hrQ]
  · rw [div_le_iff₀ h1000]
    rw [Int.cast_natCast]
    linarith [hqQ, hr9Q]

lemma numScreenshots_zero : numScreenshots 0 = 0 := rfl

lemma numScreenshots_one (h : Nat) (h0 : 0 < h) (h1 : h ≤ viewportHeight) :
    numScreenshots h = 1 := by
  unfold numScreenshots viewportHeight at *
  omega

lemma countClose_append (a b : List Event) :
    countClose (a ++ b) = countClose a + countClose b := by
  induction a with
  | nil => simp [countClose]
  | cons e rest ih => simp [countClose, ih]; omega

lemma countClose_captureLoop (env : Env) :
    ∀ (k i : Nat) (st : St),
      countClose (captureLoop env i k st).2.events = countClose st.events := by
  intro k
  induction k with
  | zero => intro i st; simp [captureLoop]
  | succ k ih =>
    intro i st
    simp only [captureLoop]
    cases env.loopScrollErr i with
    | some e => simp [emit, countClose_append, countClose, isClose]
    | none =>
      cases env.shotErr i with
      | some e => simp [emit, countClose_append, countClose, isClose]
      | none =>
        cases env.saveErr i with
        | some e => simp [emit, countClose_append, countClose, isClose]
        | none =>
          simp only [ih]
          simp [emit, writeFileToDir, countClose_append, countClose, isClose]

/-- Closed form of a fully successful run: every external call succeeds and
the analysis produces reviews value `v`. -/
lemma extractReviews_ok (m : DomMetrics) (r : Option String) (d : List String)
    (u : String) (v : JsVal)
    (hv : getReviewsField (analyzeScreenshots r) = Except.ok v) :
    extractReviews { baseEnv with metrics := m, apiReply := r, initialDirFiles := d } u =
      (Except.ok ⟨jsConcat [] v, none⟩,
        ⟨preEvents u ++ loopEvents (numScreenshots (measuredBodyHeight m)) ++
            [Event.analyzeCall (numScreenshots (measuredBodyHeight m)), Event.closeBrowser],
          loopDirFold [] 0 (numScreenshots (measuredBodyHeight m)),
          loopFrames (numScreenshots (measuredBodyHeight m))⟩) := by
  have hcap := captureLoop_ok { baseEnv with metrics := m, apiReply := r, initialDirFiles := d }
    (fun j => rfl) (fun j => rfl) (fun j => rfl)
  simp only [baseEnv] at hcap
  simp only [extractReviews, tryBody, afterMeasure, analysisStage, baseEnv, hcap, hv, emit,
    clearScreenshotsFolder, loopFrames, loopEvents, preEvents, List.range_eq_range']
  simp [List.append_assoc, List.length_append, List.length_map, List.length_range']

/-- On a run whose analysis stage throws (reading `.reviews` off a `null`),
the request still resolves, with the error recorded and the dump written. -/
lemma extractReviews_analysisErr (m : DomMetrics) (r : Option String) (d : List String)
    (u : String) (e : JsError)
    (hv : getReviewsField (analyzeScreenshots r) = Except.error e) :
    (extractReviews { baseEnv with metrics := m, apiReply := r, initialDirFiles := d } u).1 =
        Except.ok ⟨[], some e⟩ ∧
      Event.saveErrorDump ∈
        (extractReviews { baseEnv with metrics := m, apiReply := r, initialDirFiles := d } u).2.events := by
  have hcap := captureLoop_ok { baseEnv with metrics := m, apiReply := r, initialDirFiles := d }
    (fun j => rfl) (fun j => rfl) (fun j => rfl)
  simp only [baseEnv] at hcap
  simp only [extractReviews, tryBody, afterMeasure, analysisStage, baseEnv, hcap, hv, emit,
    clearScreenshotsFolder, writeFileToDir]
  simp [List.mem_append]

lemma countClose_analysisStage (env : Env) (stL : St) :
    countClose (analysisStage env stL).2.events = countClose stL.events := by
  unfold analysisStage
  cases getReviewsField (analyzeScreenshots env.apiReply) with
  | ok v => simp [emit, countClose_append, countClose, isClose]
  | error e =>
    cases env.dumpWriteErr with
    | some e2 => simp [emit, countClose_append, countClose, isClose]
    | none => simp [emit, writeFileToDir, countClose_append, countClose, isClose]

lemma countClose_afterMeasure (env : Env) (st6 : St) :
    countClose (afterMeasure env st6).2.events = countClose st6.events := by
  simp only [afterMeasure]
  cases env.mkdirErr with
  | some e => simp [emit, clearScreenshotsFolder, countClose_append, countClose, isClose]
  | none =>
    rcases hc : captureLoop env 0 (numScreenshots (measuredBodyHeight env.metrics))
        (emit Event.makeDir (clearScreenshotsFolder env.clearOk st6)) with ⟨oe, stL⟩
    have hL : countClose stL.events =
        countClose (emit Event.makeDir (clearScreenshotsFolder env.clearOk st6)).events := by
      have h2 := countClose_captureLoop env (numScreenshots (measuredBodyHeight env.metrics)) 0
        (emit Event.makeDir (clearScreenshotsFolder env.clearOk st6))
      rw [hc] at h2
      exact h2
    cases oe with
    | some e =>
      simp only []
      rw [hL]
      simp [emit, clearScreenshotsFolder, countClose_append, countClose, isClose]
    | none =>
      simp only []
      rw [countClose_analysisStage, hL]
      simp [emit, clearScreenshotsFolder, countClose_append, countClose, isClose]

lemma countClose_tryBody (env : Env) (u : String) (st : St) :
    countClose (tryBody env u st).2.events = countClose st.events := by
  unfold tryBody
  cases env.gotoErr with
  | some e => simp [emit, countClose_append, countClose, isClose]
  | none =>
    cases env.waitBodyErr with
    | some e => simp [emit, countClose_append, countClose, isClose]
    | none =>
      cases env.antiBotErr with
      | some e => simp [emit, countClose_append, countClose, isClose]
      | none =>
        cases env.viewportErr with
        | some e => simp [emit, countClose_append, countClose, isClose]
        | none =>
          cases env.scrollEvalErr with
          | some e => simp [emit, countClose_append, countClose, isClose]
          | none =>
            cases env.measureErr with
            | some e => simp [emit, countClose_append, countClose, isClose]
            | none =>
              rw [countClose_afterMeasure]
              simp [emit, countClose_append, countClose, isClose]

/-! ## Claim theorems -/

/-- C6 (amended): on every exit path reached after both `chromium.launch()`
and `browser.newPage()` succeed — success, renderer navigation or timeout
failure, and any other exception inside the pipeline body — the browser is
closed exactly once; but if `launch` fails no browser exists (zero closes),
and if `newPage` itself fails the already-launched browser is never closed,
because both calls run before the `try`/`finally`. -/
theorem browser_close_exactly_once_after_page (env : Env) (u : String) :
    countClose (extractReviews env u).2.events =
      if env.launchErr = none ∧ env.newPageErr = none then 1 else 0 := by
  unfold extractReviews
  cases hl : env.launchErr with
  | some e => simp [countClose]
  | none =>
    cases hn : env.newPageErr with
    | some e => simp [countClose, isClose]
    | none =>
      simp only [emit]
      rw [countClose_append]
      rw [countClose_tryBody]
      simp [countClose, isClose]

/-- C6 counterexample: with `browser.newPage()` rejecting, the run ends with
a launched browser and no `closeBrowser` event — the claim's "released exactly
once on every exit path" fails on this path. -/
theorem browser_leak_on_newPage_failure_cx :
    countClose ((extractReviews { baseEnv with newPageErr := some ⟨"Error", "browser closed"⟩ }
        "http://example.com").2.events) = 0 ∧
      Event.launched ∈ (extractReviews { baseEnv with newPageErr := some ⟨"Error", "browser closed"⟩ }
        "http://example.com").2.events := by
  constructor
  · rfl
  · decide

/-- C2 (amended): for every measured page height `h` the Sequencer captures
exactly `ceil(h / v)` frames (`v = 1000` fixed); `0 < h ≤ v` gives exactly one
frame and `h = 0` gives the empty frame sequence — but even with zero frames
the extraction step is still invoked, with an empty image list (line 194 runs
unconditionally), rather than being skipped. -/
theorem frame_count_eq_ceil (h : Nat) (u : String) :
    ((extractReviews { baseEnv with metrics := uniformMetrics h } u).2.frames.length =
        numScreenshots h) ∧
      (((extractReviews { baseEnv with metrics := uniformMetrics h } u).2.frames.length : ℤ) =
        ⌈(h : ℚ) / (viewportHeight : ℚ)⌉) ∧
      (h = 0 → (extractReviews { baseEnv with metrics := uniformMetrics h } u).2.frames = []) ∧
      (0 < h → h ≤ viewportHeight →
        (extractReviews { baseEnv with metrics := uniformMetrics h } u).2.frames.length = 1) ∧
      (h = 0 → Event.analyzeCall 0 ∈
        (extractReviews { baseEnv with metrics := uniformMetrics h } u).2.events) := by
  have hm := extractReviews_ok (uniformMetrics h) none [] u (JsVal.arr []) (by rfl)
  simp only [baseEnv] at hm
  simp only [baseEnv]
  rw [hm, measuredBodyHeight_uniform]
  have hlen : (loopFrames (numScreenshots h)).length = numScreenshots h := by
    simp [loopFrames]
  refine ⟨hlen, ?_, ?_, ?_, ?_⟩
  · rw [hlen, numScreenshots_eq_ceil]
  · intro h0
    subst h0
    rfl
  · intro h0 h1
    rw [hlen, numScreenshots_one h h0 h1]
  · intro h0
    subst h0
    simp [numScreenshots_zero, List.mem_append]

/-- C2 witness: at `h = 2500` the run captures `ceil(2500/1000) = 3` frames,
and the hypotheses of the amended theorem are dischargeable. -/
theorem frame_count_eq_ceil_witness :
    (0 : Nat) < 700 ∧ (700 : Nat) ≤ viewportHeight ∧
      (extractReviews { baseEnv with metrics := uniformMetrics 700 } "http://example.com").2.frames.length = 1 :=
  ⟨by decide, by decide,
    ((frame_count_eq_ceil 700 "http://example.com").2.2.2.1 (by decide) (by decide))⟩

/-- C2 counterexample: at height 0 the frame sequence is empty, but the
extractor is still called (with zero images) — the claim's "no extraction
attempted" is false on the code. -/
theorem zero_height_still_calls_extractor_cx :
    (extractReviews { baseEnv with metrics := uniformMetrics 0 } "http://example.com").2.frames
        = [] ∧
      Event.analyzeCall 0 ∈
        (extractReviews { baseEnv with metrics := uniformMetrics 0 } "http://example.com").2.events := by
  constructor
  · rfl
  · decide

/-- C5: on a successful run the full event trace is the renderer prelude
followed, for each `i` in `[0, n)` in order, by scroll-to `i × viewportHeight`,
a fixed 2000 ms settle wait, a viewport-sized (`fullPage := false`) capture,
and a persist under `screenshot_i.png`; the in-memory frame list is exactly
the frames in index order, and scroll offsets are strictly increasing. -/
theorem sequencer_trace_order (h : Nat) (u : String) :
    (extractReviews { baseEnv with metrics := uniformMetrics h } u).2.events =
        preEvents u ++ loopEvents (numScreenshots h) ++
          [Event.analyzeCall (numScreenshots h), Event.closeBrowser] ∧
      (extractReviews { baseEnv with metrics := uniformMetrics h } u).2.frames =
        loopFrames (numScreenshots h) ∧
      List.Pairwise (fun a b => a.yOffset < b.yOffset)
        (extractReviews { baseEnv with metrics := uniformMetrics h } u).2.frames := by
  have hm := extractReviews_ok (uniformMetrics h) none [] u (JsVal.arr []) (by rfl)
  simp only [baseEnv] at hm
  simp only [baseEnv]
  rw [hm, measuredBodyHeight_uniform]
  refine ⟨rfl, rfl, ?_⟩
  simp only [loopFrames, List.pairwise_map]
  refine (List.pairwise_lt_range (numScreenshots h)).imp ?_
  intro a b hab
  simp only [viewportHeight]
  omega

/-- C9: the measured page height is `Math.max` over the six DOM size
candidates (scroll, offset and client heights of both `document.body` and
`document.documentElement`), hence at least as large as each candidate and
equal to one of them. -/
theorem measured_height_is_max_of_six (m : DomMetrics) :
    (m.bodyScrollHeight ≤ measuredBodyHeight m ∧ m.docScrollHeight ≤ measuredBodyHeight m ∧
        m.bodyOffsetHeight ≤ measuredBodyHeight m ∧ m.docOffsetHeight ≤ measuredBodyHeight m ∧
        m.bodyClientHeight ≤ measuredBodyHeight m ∧ m.docClientHeight ≤ measuredBodyHeight m) ∧
      (measuredBodyHeight m = m.bodyScrollHeight ∨ measuredBodyHeight m = m.docScrollHeight ∨
        measuredBodyHeight m = m.bodyOffsetHeight ∨ measuredBodyHeight m = m.docOffsetHeight ∨
        measuredBodyHeight m = m.bodyClientHeight ∨ measuredBodyHeight m = m.docClientHeight) := by
  unfold measuredBodyHeight
  constructor
  · omega
  · omega

/-- C1 (amended): when the vision-provider call fails, the failure is caught
inside `analyzeScreenshots` itself (lines 126-129), which returns the empty
review object; the endpoint therefore still returns a success response with
`reviews: []` and never a 500 — but `errorDetails` is `null`, not non-null,
and no error payload is persisted to the working directory, because the
`catch` in `extractReviews` (lines 196-202) that would do both is never
reached on this path. -/
theorem provider_failure_graceful (u : String) (m : DomMetrics) (d : List String)
    (hu : u ≠ "") :
    (apiReviews (some u) { baseEnv with metrics := m, initialDirFiles := d }).1 =
        ApiResponse.success 0 [] none ∧
      ((apiReviews (some u) { baseEnv with metrics := m, initialDirFiles := d }).1).status =
        200 ∧
      Event.saveErrorDump ∉
        (apiReviews (some u) { baseEnv with metrics := m, initialDirFiles := d }).2.events := by
  have hm := extractReviews_ok m none d u (JsVal.arr []) (by rfl)
  simp only [baseEnv] at hm
  simp only [apiReviews, if_neg hu, baseEnv]
  rw [hm]
  refine ⟨rfl, rfl, ?_⟩
  simp [preEvents, loopEvents, frameEvents, List.mem_append, List.mem_flatten, List.mem_map]

/-- C1 witness: the amended theorem applied at a concrete URL and height. -/
theorem provider_failure_graceful_witness :
    (apiReviews (some "http://example.com") { baseEnv with metrics := uniformMetrics 500, initialDirFiles := [] }).1 = ApiResponse.success 0 [] none :=
  (provider_failure_graceful "http://example.com" (uniformMetrics 500) [] (by decide)).1

/-- C1 counterexample: on a provider failure the response's `errorDetails` is
`null` and no error dump is written — contradicting the claim's "persists the
raw error payload" and "errorDetails field is non-null". -/
theorem provider_failure_errorDetails_null_cx :
    (apiReviews (some "http://example.com") { baseEnv with metrics := uniformMetrics 500 }).1 =
        ApiResponse.success 0 [] none ∧
      Event.saveErrorDump ∉
        (apiReviews (some "http://example.com") { baseEnv with metrics := uniformMetrics 500 }).2.events := by
  refine ⟨rfl, ?_⟩
  decide

/-- C10 (amended): when the model reply reconciles to the JSON literal `null`,
the Reconciler returns it as-is and the subsequent `.reviews` access throws a
TypeError — but that throw is raised inside the inner `try` (line 195), so it
is caught at line 196: the error payload is persisted to the working
directory, and the request is answered with a success response carrying an
empty review list and a non-null `errorDetails`, not surfaced as a 500. -/
theorem null_reply_degrades_not_500 (u : String) (r : String) (m : DomMetrics)
    (d : List String) (hu : u ≠ "") (hr : reconcile r = JsVal.null) :
    (apiReviews (some u) { baseEnv with metrics := m, apiReply := some r, initialDirFiles := d }).1 =
        ApiResponse.success 0 [] (some typeErrorNull) ∧
      ((apiReviews (some u) { baseEnv with metrics := m, apiReply := some r, initialDirFiles := d }).1).status = 200 ∧
      Event.saveErrorDump ∈
        (apiReviews (some u) { baseEnv with metrics := m, apiReply := some r, initialDirFiles := d }).2.events := by
  have hv : getReviewsField (analyzeScreenshots (some r)) = Except.error typeErrorNull := by
    simp [analyzeScreenshots, hr, getReviewsField]
  have hm := extractReviews_analysisErr m (some r) d u typeErrorNull hv
  have hpair : extractReviews { baseEnv with metrics := m, apiReply := some r, initialDirFiles := d } u =
      ((extractReviews { baseEnv with metrics := m, apiReply := some r, initialDirFiles := d } u).1,
        (extractReviews { baseEnv with metrics := m, apiReply := some r, initialDirFiles := d } u).2) := rfl
  rw [hm.1] at hpair
  simp only [apiReviews, if_neg hu]
  rw [hpair]
  exact ⟨rfl, rfl, hm.2⟩

/-- C10 witness: the amended theorem applied to the literal reply `null`. -/
theorem null_reply_degrades_not_500_witness :
    ((apiReviews (some "http://example.com") { baseEnv with metrics := uniformMetrics 0, apiReply := some "null", initialDirFiles := [] }).1).status = 200 :=
  (null_reply_degrades_not_500 "http://example.com" "null" (uniformMetrics 0) [] (by decide) (by rfl)).2.1

/-- C10 counterexample: for the reply `null` the request is answered with
status 200 and non-null `errorDetails`, not the 500 the claim asserts. -/
theorem null_reply_not_500_cx :
    (apiReviews (some "http://example.com") { baseEnv with apiReply := some "null" }).1 =
        ApiResponse.success 0 [] (some typeErrorNull) ∧
      ((apiReviews (some "http://example.com") { baseEnv with apiReply := some "null" }).1).status = 200 := by
  exact ⟨rfl, rfl⟩

lemma captureLoop_dir_mem (env : Env) :
    ∀ (k i : Nat) (st : St) (f : String),
      f ∈ (captureLoop env i k st).2.dirFiles →
        f ∈ st.dirFiles ∨ ∃ j, f = frameName j := by
  intro k
  induction k with
  | zero =>
    intro i st f
    simp only [captureLoop]
    exact fun hf => Or.inl hf
  | succ k ih =>
    intro i st f
    simp only [captureLoop]
    cases env.loopScrollErr i with
    | some e => intro hf; simp [emit] at hf; exact Or.inl hf
    | none =>
      cases env.shotErr i with
      | some e => intro hf; simp [emit] at hf; exact Or.inl hf
      | none =>
        cases env.saveErr i with
        | some e => intro hf; simp [emit] at hf; exact Or.inl hf
        | none =>
          intro hf
          rcases ih (i + 1) _ f hf with hin | hj
          · simp only [writeFileToDir, emit] at hin
            by_cases hmem : frameName i ∈ st.dirFiles
            · simp [hmem] at hin
              exact Or.inl hin
            · simp [hmem, List.mem_append] at hin
              rcases hin with hin | hin
              · exact Or.inl hin
              · exact Or.inr ⟨i, hin⟩
          · exact Or.inr hj

lemma analysisStage_dir_mem (env : Env) (stL : St) (f : String) :
    f ∈ (analysisStage env stL).2.dirFiles →
      f ∈ stL.dirFiles ∨ f = "openai_error_response.txt" := by
  unfold analysisStage
  cases getReviewsField (analyzeScreenshots env.apiReply) with
  | ok v => intro hf; simp [emit] at hf; exact Or.inl hf
  | error e =>
    cases env.dumpWriteErr with
    | some e2 => intro hf; simp [emit] at hf; exact Or.inl hf
    | none =>
      intro hf
      simp only [writeFileToDir, emit] at hf
      by_cases hmem : "openai_error_response.txt" ∈ stL.dirFiles
      · simp [hmem] at hf
        exact Or.inl hf
      · simp [hmem, List.mem_append] at hf
        rcases hf with hf | hf
        · exact Or.inl hf
        · exact Or.inr hf

lemma afterMeasure_dir_mem (env : Env) (st6 : St) (hco : env.clearOk = true) (f : String) :
    f ∈ (afterMeasure env st6).2.dirFiles →
      (∃ j, f = frameName j) ∨ f = "openai_error_response.txt" := by
  simp only [afterMeasure]
  cases hm : env.mkdirErr with
  | some e =>
    intro hf
    simp [emit, clearScreenshotsFolder, hco] at hf
  | none =>
    rcases hcap : captureLoop env 0 (numScreenshots (measuredBodyHeight env.metrics))
        (emit Event.makeDir (clearScreenshotsFolder env.clearOk st6)) with ⟨oe, stL⟩
    have hmem := captureLoop_dir_mem env (numScreenshots (measuredBodyHeight env.metrics)) 0
      (emit Event.makeDir (clearScreenshotsFolder env.clearOk st6)) f
    rw [hcap] at hmem
    cases oe with
    | some e =>
      intro hf
      rcases hmem hf with h | h
      · simp [emit, clearScreenshotsFolder, hco] at h
      · exact Or.inl h
    | none =>
      intro hf
      rcases analysisStage_dir_mem env stL f hf with h | h
      · rcases hmem h with h2 | h2
        · simp [emit, clearScreenshotsFolder, hco] at h2
        · exact Or.inl h2
      · exact Or.inr h

lemma tryBody_dir_mem (env : Env) (u : String) (st0 : St) (hco : env.clearOk = true)
    (h1 : env.gotoErr = none) (h2 : env.waitBodyErr = none) (h3 : env.antiBotErr = none)
    (h4 : env.viewportErr = none) (h5 : env.scrollEvalErr = none)
    (h6 : env.measureErr = none) (f : String) :
    f ∈ (tryBody env u st0).2.dirFiles →
      (∃ j, f = frameName j) ∨ f = "openai_error_response.txt" := by
  simp only [tryBody, h1, h2, h3, h4, h5, h6]
  exact afterMeasure_dir_mem env _ hco f

/-- C7 (amended): whenever the directory clear itself succeeds, every file in
the working directory after the run was written by this run (a
`screenshot_i.png` frame or the error dump), for every combination of
per-frame capture/save failures, dump-write failure and provider reply; but
when the clear fails, its error is swallowed by `clearScreenshotsFolder`'s own
`catch` (lines 40-42) and the run proceeds over the stale contents. -/
theorem workdir_only_current_run_files (m : DomMetrics) (r : Option String) (d : List String)
    (ls se we : Nat → Option JsError) (de mke : Option JsError) (u f : String)
    (hf : f ∈ (extractReviews { baseEnv with metrics := m, apiReply := r, initialDirFiles := d, loopScrollErr := ls, shotErr := se, saveErr := we, dumpWriteErr := de, mkdirErr := mke } u).2.dirFiles) :
    (∃ j, f = frameName j) ∨ f = "openai_error_response.txt" := by
  simp only [extractReviews, baseEnv, emit] at hf
  exact tryBody_dir_mem _ u _ rfl rfl rfl rfl rfl rfl rfl f hf

/-- C7 witness: a run over a directory holding a stale file, after a
successful clear, ends with only this run's files; the theorem is applied to
the frame file the run wrote. -/
theorem workdir_only_current_run_files_witness :
    (∃ j, "screenshot_0.png" = frameName j) ∨
      "screenshot_0.png" = "openai_error_response.txt" :=
  workdir_only_current_run_files (uniformMetrics 1500) none ["stale.png"]
    (fun _ => none) (fun _ => none) (fun _ => none) none none "http://example.com"
    "screenshot_0.png" (by decide)

/-- C7 counterexample: when the clear fails (its error being swallowed), a
frame file of a previous run survives next to the new run's frame — two runs'
frame images coexist, so the directory was not emptied before writing. -/
theorem stale_frames_survive_failed_clear_cx :
    "screenshot_1.png" ∈
        (extractReviews { baseEnv with metrics := uniformMetrics 500, clearOk := false, initialDirFiles := ["screenshot_1.png"] } "http://example.com").2.dirFiles ∧
      "screenshot_0.png" ∈
        (extractReviews { baseEnv with metrics := uniformMetrics 500, clearOk := false, initialDirFiles := ["screenshot_1.png"] } "http://example.com").2.dirFiles ∧
      (extractReviews { baseEnv with metrics := uniformMetrics 500, clearOk := false, initialDirFiles := ["screenshot_1.png"] } "http://example.com").2.frames.length = 1 := by
  refine ⟨?_, ?_, rfl⟩ <;> decide

/-- C3 (amended): the Reconciler is a total function — no input text makes it
throw — and on any parse failure (strict parse of the cleaned text fails, and
the greedy brace substring is absent or also fails to parse) it returns the
empty review list, as it does for the empty string, non-JSON prose and
truncated JSON; on parse success, however, it returns the parsed JSON value
as-is, which need not be a review-list object (see the counterexample). -/
theorem reconcile_never_fails (s : String)
    (hp : jsonParseChars (cleanContent s) = none)
    (hb : ∀ sub, braceMatch (cleanContent s) = some sub → jsonParseChars sub = none) :
    reconcile s = emptyReviewsObj ∧
      reconcile "" = emptyReviewsObj ∧
      reconcile "I could not extract any reviews from these screenshots." = emptyReviewsObj ∧
      reconcile "\x7b\x22reviews\x22: [\x7b\x22title\x22: \x22Grea" = emptyReviewsObj := by
  refine ⟨?_, rfl, rfl, rfl⟩
  simp only [reconcile, hp]
  cases hbm : braceMatch (cleanContent s) with
  | none => rfl
  | some sub =>
    have hx := hb sub hbm
    simp [hx]

/-- C3 witness: the amended theorem applied to the empty string. -/
theorem reconcile_never_fails_witness : reconcile "" = emptyReviewsObj :=
  (reconcile_never_fails "" (by rfl)
    (fun sub h => by
      rw [show braceMatch (cleanContent "") = none from rfl] at h
      exact Option.noConfusion h)).1

/-- C3 counterexample: the input `null` parses strictly, so the Reconciler
returns the JSON value `null` as-is — not a structured review list. -/
theorem reconcile_null_not_review_list_cx :
    reconcile "null" = JsVal.null ∧ JsVal.null ≠ emptyReviewsObj := by
  refine ⟨rfl, ?_⟩
  simp [emptyReviewsObj]

/-- C8: `/api/reviews` returns the `{reviews_count, reviews, errorDetails}`
success shape (status 200) when the pipeline resolves, 400 when the `page`
parameter is missing, 504 when the pipeline rejects with an error named
`TimeoutError`, and 500 carrying `error.message` for every other rejection. -/
theorem api_reviews_status_contract (env : Env) (u : String) (hu : u ≠ "") :
    ((apiReviews none env).1 = ApiResponse.missingParam ∧
        ((apiReviews none env).1).status = 400) ∧
      (∀ r, (extractReviews env u).1 = Except.ok r →
        (apiReviews (some u) env).1 =
            ApiResponse.success r.reviews.length r.reviews r.errorDetails ∧
          ((apiReviews (some u) env).1).status = 200) ∧
      (∀ e, (extractReviews env u).1 = Except.error e → e.name = "TimeoutError" →
        (apiReviews (some u) env).1 = ApiResponse.timeout ∧
          ((apiReviews (some u) env).1).status = 504) ∧
      (∀ e, (extractReviews env u).1 = Except.error e → e.name ≠ "TimeoutError" →
        (apiReviews (some u) env).1 = ApiResponse.failure e.message ∧
          ((apiReviews (some u) env).1).status = 500) := by
  have hpair : extractReviews env u =
      ((extractReviews env u).1, (extractReviews env u).2) := rfl
  refine ⟨⟨rfl, rfl⟩, ?_, ?_, ?_⟩
  · intro r hr
    rw [hr] at hpair
    simp only [apiReviews, if_neg hu]
    rw [hpair]
    exact ⟨rfl, rfl⟩
  · intro e he ht
    rw [he] at hpair
    simp only [apiReviews, if_neg hu]
    rw [hpair]
    simp only [if_pos ht]
    exact ⟨trivial, rfl⟩
  · intro e he ht
    rw [he] at hpair
    simp only [apiReviews, if_neg hu]
    rw [hpair]
    simp only [if_neg ht]
    exact ⟨trivial, rfl⟩

/-- C8 witness: the contract applied on all four routes — missing parameter,
successful pipeline, `TimeoutError` rejection, and any other rejection. -/
theorem api_reviews_status_contract_witness :
    ((apiReviews none baseEnv).1).status = 400 ∧
      ((apiReviews (some "http://example.com") baseEnv).1).status = 200 ∧
      ((apiReviews (some "http://example.com") { baseEnv with gotoErr := some ⟨"TimeoutError", "Timeout 60000ms exceeded."⟩ }).1).status = 504 ∧
      ((apiReviews (some "http://example.com") { baseEnv with gotoErr := some ⟨"Error", "net::ERR_NAME_NOT_RESOLVED"⟩ }).1).status = 500 := by
  refine ⟨?_, ?_, ?_, ?_⟩
  · exact (api_reviews_status_contract baseEnv "http://example.com" (by decide)).1.2
  · exact ((api_reviews_status_contract baseEnv "http://example.com"
      (by decide)).2.1 ⟨[], none⟩ (by rfl)).2
  · exact ((api_reviews_status_contract
      { baseEnv with gotoErr := some ⟨"TimeoutError", "Timeout 60000ms exceeded."⟩ }
      "http://example.com" (by decide)).2.2.1 ⟨"TimeoutError", "Timeout 60000ms exceeded."⟩
      (by rfl) (by rfl)).2
  · exact ((api_reviews_status_contract
      { baseEnv with gotoErr := some ⟨"Error", "net::ERR_NAME_NOT_RESOLVED"⟩ }
      "http://example.com" (by decide)).2.2.2 ⟨"Error", "net::ERR_NAME_NOT_RESOLVED"⟩
      (by rfl) (by decide)).2

lemma stripFencesAux_nil (f : Nat) : stripFencesAux f [] = [] := by
  cases f with
  | zero => rfl
  | succ f => rfl

lemma fencePlain_not_prefixOf_head (c : Char) (rest : List Char) (hc : c ≠ '\x60') :
    fencePlain.isPrefixOf (c :: rest) = false := by
  have h60 : ('\x60' == c) = false := beq_eq_false_iff_ne.mpr (fun he => hc he.symm)
  simp [fencePlain, List.isPrefixOf, h60]

lemma fenceOpen_not_prefixOf (c : Char) (rest : List Char) (hc : c ≠ '\x60') :
    fenceOpen.isPrefixOf (c :: rest) = false := by
  have h60 : ('\x60' == c) = false := beq_eq_false_iff_ne.mpr (fun he => hc he.symm)
  simp [fenceOpen, List.isPrefixOf, h60]

lemma fenceNl_not_prefixOf_head (c : Char) (rest : List Char) (hc : c ≠ '\n') :
    fenceNl.isPrefixOf (c :: rest) = false := by
  have hn : ('\n' == c) = false := beq_eq_false_iff_ne.mpr (fun he => hc he.symm)
  simp [fenceNl, List.isPrefixOf, hn]

lemma isPrefixOf_append_self (l t : List Char) : l.isPrefixOf (l ++ t) = true := by
  induction l with
  | nil =>
    cases t with
    | nil => rfl
    | cons c cs => rfl
  | cons c cs ih => simp [List.isPrefixOf, ih]

lemma fencePlain_prefixOf_run (cs : List Char) (h : fencePlain.isPrefixOf cs = true) :
    fencePlain <:+: cs := by
  cases cs with
  | nil => simp [fencePlain, List.isPrefixOf] at h
  | cons a r1 =>
    cases r1 with
    | nil => simp [fencePlain, List.isPrefixOf] at h
    | cons b r2 =>
      cases r2 with
      | nil => simp [fencePlain, List.isPrefixOf] at h
      | cons c r =>
        simp only [fencePlain, List.isPrefixOf, Bool.and_eq_true, beq_iff_eq] at h
        obtain ⟨ha, hb, hc, -⟩ := h
        subst ha
        subst hb
        subst hc
        exact ⟨[], r, by simp [fencePlain]⟩

lemma fenceOpen_prefixOf_imp (cs : List Char) (h : fenceOpen.isPrefixOf cs = true) :
    fencePlain.isPrefixOf cs = true := by
  cases cs with
  | nil => simp [fenceOpen, List.isPrefixOf] at h
  | cons a r1 =>
    cases r1 with
    | nil => simp [fenceOpen, List.isPrefixOf] at h
    | cons b r2 =>
      cases r2 with
      | nil => simp [fenceOpen, List.isPrefixOf] at h
      | cons c r =>
        simp only [fenceOpen, List.isPrefixOf, Bool.and_eq_true] at h
        simp [fencePlain, List.isPrefixOf, h.1, h.2.1, h.2.2.1]

lemma fenceNl_prefixOf_run (cs : List Char) (h : fenceNl.isPrefixOf cs = true) :
    fencePlain <:+: cs := by
  cases cs with
  | nil => simp [fenceNl, List.isPrefixOf] at h
  | cons a r =>
    have hr : fencePlain.isPrefixOf r = true := by
      simp only [fenceNl, List.isPrefixOf, Bool.and_eq_true] at h
      simpa [fencePlain, List.isPrefixOf] using h.2
    obtain ⟨s, t, hst⟩ := fencePlain_prefixOf_run r hr
    exact ⟨a :: s, t, by rw [← hst]; simp⟩

lemma run_mem_tick (cs : List Char) (h : fencePlain <:+: cs) : '\x60' ∈ cs := by
  obtain ⟨s, t, hst⟩ := h
  rw [← hst]
  simp [fencePlain]

lemma noTick_noRun (cs : List Char) (h : '\x60' ∉ cs) : ¬ fencePlain <:+: cs :=
  fun hr => h (run_mem_tick cs hr)

lemma run_cons (c : Char) (cs : List Char) (h : fencePlain <:+: cs) :
    fencePlain <:+: c :: cs := by
  obtain ⟨s, t, hst⟩ := h
  exact ⟨c :: s, t, by rw [← hst]; simp⟩

lemma run_drop_left (A X : List Char) (hA : '\x60' ∉ A)
    (h : fencePlain <:+: A ++ X) : fencePlain <:+: X := by
  induction A with
  | nil => simpa using h
  | cons a A' ih =>
    obtain ⟨s, t, hst⟩ := h
    rw [List.cons_append] at hst
    cases s with
    | nil =>
      simp only [List.nil_append] at hst
      rw [show fencePlain ++ t = '\x60' :: ('\x60' :: '\x60' :: t) from rfl] at hst
      injection hst with h1 h2
      subst h1
      exact absurd (List.mem_cons_self _ _) hA
    | cons b s' =>
      simp only [List.cons_append] at hst
      injection hst with h1 h2
      exact ih (fun hm => hA (List.mem_cons_of_mem a hm)) ⟨s', t, h2⟩

lemma run_rev (cs : List Char) (h : fencePlain <:+: cs) : fencePlain <:+: cs.reverse := by
  obtain ⟨s, t, hst⟩ := h
  refine ⟨t.reverse, s.reverse, ?_⟩
  rw [← hst]
  simp [fencePlain]

lemma run_drop_right (X C : List Char) (hC : '\x60' ∉ C)
    (h : fencePlain <:+: X ++ C) : fencePlain <:+: X := by
  have h1 : fencePlain <:+: C.reverse ++ X.reverse := by
    have h0 := run_rev _ h
    simpa [List.reverse_append] using h0
  have h2 : fencePlain <:+: X.reverse :=
    run_drop_left C.reverse X.reverse (fun hm => hC (List.mem_reverse.mp hm)) h1
  have h3 := run_rev _ h2
  simpa using h3

lemma fencePlain_prefix_nl (s T : List Char) (hs : ¬ fencePlain <:+: s) :
    fencePlain.isPrefixOf (s ++ '\n' :: T) = false := by
  have h60n : ('\x60' == '\n') = false := by decide
  cases s with
  | nil => simp [fencePlain, List.isPrefixOf, h60n]
  | cons a r1 =>
    cases r1 with
    | nil => simp [fencePlain, List.isPrefixOf, h60n]
    | cons b r2 =>
      cases r2 with
      | nil => simp [fencePlain, List.isPrefixOf, h60n]
      | cons c r =>
        cases hfp : fencePlain.isPrefixOf ((a :: b :: c :: r) ++ '\n' :: T) with
        | false => rfl
        | true =>
          exfalso
          simp only [List.cons_append, fencePlain, List.isPrefixOf, Bool.and_eq_true,
            beq_iff_eq] at hfp
          obtain ⟨ha, hb, hc, -⟩ := hfp
          subst ha
          subst hb
          subst hc
          exact hs ⟨[], r, by simp [fencePlain]⟩

lemma stripFencesAux_id (cs : List Char) (h : ¬ fencePlain <:+: cs) :
    ∀ f, cs.length ≤ f → stripFencesAux f cs = cs := by
  induction cs with
  | nil => intro f hf; exact stripFencesAux_nil f
  | cons c rest ih =>
    intro f hf
    cases f with
    | zero => simp at hf
    | succ f =>
      have hpl : fencePlain.isPrefixOf (c :: rest) = false := by
        cases hx : fencePlain.isPrefixOf (c :: rest) with
        | false => rfl
        | true => exact absurd (fencePlain_prefixOf_run _ hx) h
      have hop : fenceOpen.isPrefixOf (c :: rest) = false := by
        cases hx : fenceOpen.isPrefixOf (c :: rest) with
        | false => rfl
        | true => exact absurd (fencePlain_prefixOf_run _ (fenceOpen_prefixOf_imp _ hx)) h
      have hnl : fenceNl.isPrefixOf (c :: rest) = false := by
        cases hx : fenceNl.isPrefixOf (c :: rest) with
        | false => rfl
        | true => exact absurd (fenceNl_prefixOf_run _ hx) h
      rw [stripFencesAux, hop, hnl, hpl]
      simp only [Bool.false_eq_true, if_false]
      rw [ih (fun hr => h (run_cons c rest hr)) f (by simpa using hf)]

lemma stripFencesAux_emit (a : List Char) (ha : '\x60' ∉ a) :
    ∀ N, fencePlain.isPrefixOf N = false ∨ a.getLast? ≠ some '\n' →
      ∀ f, stripFencesAux f (a ++ N) = a ++ stripFencesAux (f - a.length) N := by
  induction a with
  | nil =>
    intro N hN f
    simp
  | cons c a' ih =>
    intro N hN f
    cases f with
    | zero =>
      rw [Nat.zero_sub]
      rfl
    | succ f =>
      have hc : c ≠ '\x60' := fun he => ha (he ▸ List.mem_cons_self c a')
      have ha' : '\x60' ∉ a' := fun hm => ha (List.mem_cons_of_mem c hm)
      have hop : fenceOpen.isPrefixOf (c :: (a' ++ N)) = false :=
        fenceOpen_not_prefixOf c _ hc
      have hpl : fencePlain.isPrefixOf (c :: (a' ++ N)) = false :=
        fencePlain_not_prefixOf_head c _ hc
      have hnl : fenceNl.isPrefixOf (c :: (a' ++ N)) = false := by
        by_cases hcn : c = '\n'
        · subst hcn
          have hrest : fencePlain.isPrefixOf (a' ++ N) = false := by
            cases a' with
            | nil =>
              rcases hN with hN | hN
              · simpa using hN
              · simp at hN
            | cons d a'' =>
              have hd : d ≠ '\x60' := fun he => ha' (he ▸ List.mem_cons_self d a'')
              rw [List.cons_append]
              exact fencePlain_not_prefixOf_head d _ hd
          rw [show fenceNl = '\n' :: fencePlain from rfl]
          simp [List.isPrefixOf, hrest]
        · exact fenceNl_not_prefixOf_head c _ hcn
      have hN' : fencePlain.isPrefixOf N = false ∨ a'.getLast? ≠ some '\n' := by
        cases a' with
        | nil => exact Or.inr (by simp)
        | cons d a'' =>
          rcases hN with hN | hN
          · exact Or.inl hN
          · exact Or.inr (by rwa [List.getLast?_cons_cons] at hN)
      rw [List.cons_append, stripFencesAux, hop, hnl, hpl]
      simp only [Bool.false_eq_true, if_false]
      rw [ih ha' N hN' f]
      simp [Nat.add_sub_add_right]

lemma stripFencesAux_closeTail (js p2 : List Char) (hjs : ¬ fencePlain <:+: js)
    (hp2 : '\x60' ∉ p2) :
    ∀ f, js.length + p2.length + 1 ≤ f →
      stripFencesAux f (js ++ (fenceNl ++ p2)) = js ++ p2 := by
  induction js with
  | nil =>
    intro f hf
    cases f with
    | zero => simp at hf
    | succ f =>
      rw [List.nil_append,
        show fenceNl ++ p2 = '\n' :: (fencePlain ++ p2) from rfl,
        stripFencesAux]
      rw [show fenceOpen.isPrefixOf ('\n' :: (fencePlain ++ p2)) = false from
        fenceOpen_not_prefixOf '\n' _ (by decide)]
      simp only [Bool.false_eq_true, if_false]
      rw [show fenceNl.isPrefixOf ('\n' :: (fencePlain ++ p2)) = true from
        isPrefixOf_append_self fenceNl p2]
      simp only [if_true]
      rw [show ('\n' :: (fencePlain ++ p2)).drop 4 = p2 from rfl]
      rw [stripFencesAux_id p2 (noTick_noRun p2 hp2) f (by simp at hf; omega)]
      simp
  | cons c rest ih =>
    intro f hf
    cases f with
    | zero => simp at hf
    | succ f =>
      have hrest : ¬ fencePlain <:+: rest := fun hr => hjs (run_cons c rest hr)
      have hpl : fencePlain.isPrefixOf (c :: (rest ++ (fenceNl ++ p2))) = false := by
        rw [show c :: (rest ++ (fenceNl ++ p2)) =
          (c :: rest) ++ '\n' :: (fencePlain ++ p2) from rfl]
        exact fencePlain_prefix_nl (c :: rest) _ hjs
      have hop : fenceOpen.isPrefixOf (c :: (rest ++ (fenceNl ++ p2))) = false := by
        cases hx : fenceOpen.isPrefixOf (c :: (rest ++ (fenceNl ++ p2))) with
        | false => rfl
        | true =>
          exfalso
          have h2 := fenceOpen_prefixOf_imp _ hx
          rw [hpl] at h2
          exact Bool.false_ne_true h2
      have hnl : fenceNl.isPrefixOf (c :: (rest ++ (fenceNl ++ p2))) = false := by
        by_cases hcn : c = '\n'
        · subst hcn
          have hrestpl : fencePlain.isPrefixOf (rest ++ '\n' :: (fencePlain ++ p2)) = false :=
            fencePlain_prefix_nl rest _ hrest
          rw [show fenceNl = '\n' :: fencePlain from rfl]
          simp [List.isPrefixOf, hrestpl]
        · exact fenceNl_not_prefixOf_head c _ hcn
      rw [List.cons_append, stripFencesAux, hop, hnl, hpl]
      simp only [Bool.false_eq_true, if_false]
      rw [ih hrest f (by simp at hf ⊢; omega)]
      simp

lemma stripFences_fenced (jd : List Char) (hrun : ¬ fencePlain <:+: jd) :
    stripFences (fenceOpen ++ '\n' :: (jd ++ fenceNl)) = jd := by
  unfold stripFences
  have hlen : (fenceOpen ++ '\n' :: (jd ++ fenceNl)).length = jd.length + 12 := by
    simp [fenceOpen, fenceNl]
  rw [hlen]
  have h1 : stripFencesAux (jd.length + 11) (jd ++ (fenceNl ++ [])) = jd ++ [] :=
    stripFencesAux_closeTail jd [] hrun (by simp) (jd.length + 11) (by simp)
  have h2 : stripFencesAux (jd.length + 11) (jd ++ fenceNl) = jd := by simpa using h1
  exact h2

lemma stripFences_combined (p1d jd p2d : List Char)
    (hp1t : '\x60' ∉ p1d) (hp2t : '\x60' ∉ p2d)
    (hrun : ¬ fencePlain <:+: jd) :
    ∃ A, stripFences (p1d ++ (fenceOpen ++ '\n' :: (jd ++ (fenceNl ++ p2d)))) =
        A ++ (jd ++ p2d) ∧
      ∀ c ∈ A, c ∈ p1d ∨ c = 'j' ∨ c = 's' ∨ c = 'o' ∨ c = 'n' ∨ c = '\n' := by
  have hclose : fencePlain.isPrefixOf (jd ++ (fenceNl ++ p2d)) = false := by
    rw [show jd ++ (fenceNl ++ p2d) = jd ++ '\n' :: (fencePlain ++ p2d) from rfl]
    exact fencePlain_prefix_nl jd (fencePlain ++ p2d) hrun
  by_cases hl : p1d.getLast? = some '\n'
  · have hne : p1d ≠ [] := by intro h0; rw [h0] at hl; simp at hl
    have hgl : p1d.getLast hne = '\n' := by
      have h2 := List.getLast?_eq_getLast p1d hne
      rw [h2] at hl
      exact Option.some.inj hl
    obtain ⟨q, hq⟩ : ∃ q, p1d = q ++ ['\n'] := by
      refine ⟨p1d.dropLast, ?_⟩
      conv_lhs => rw [← List.dropLast_append_getLast hne]
      rw [hgl]
    subst hq
    have hqt : '\x60' ∉ q := fun hm => hp1t (List.mem_append_left _ hm)
    refine ⟨q ++ ['j', 's', 'o', 'n', '\n'], ?_, ?_⟩
    · unfold stripFences
      have hlen : ((q ++ ['\n']) ++ (fenceOpen ++ '\n' :: (jd ++ (fenceNl ++ p2d)))).length =
          q.length + (jd.length + p2d.length + 13) := by
        simp only [List.length_append, List.length_cons, List.length_nil, fenceOpen, fenceNl]
        omega
      rw [hlen]
      rw [List.append_assoc q ['\n'] (fenceOpen ++ '\n' :: (jd ++ (fenceNl ++ p2d)))]
      have hcond : fencePlain.isPrefixOf
          (['\n'] ++ (fenceOpen ++ '\n' :: (jd ++ (fenceNl ++ p2d)))) = false := by
        rw [List.singleton_append]
        exact fencePlain_not_prefixOf_head '\n' _ (by decide)
      rw [stripFencesAux_emit q hqt _ (Or.inl hcond) _]
      rw [show q.length + (jd.length + p2d.length + 13) - q.length =
        jd.length + p2d.length + 13 from by omega]
      rw [List.append_assoc q ['j', 's', 'o', 'n', '\n'] (jd ++ p2d)]
      congr 1
      have hmid : stripFencesAux (jd.length + p2d.length + 12)
          (['j', 's', 'o', 'n', '\n'] ++ (jd ++ (fenceNl ++ p2d))) =
          ['j', 's', 'o', 'n', '\n'] ++ (jd ++ p2d) := by
        rw [stripFencesAux_emit ['j', 's', 'o', 'n', '\n'] (by decide) _ (Or.inl hclose) _]
        congr 1
        rw [show (['j', 's', 'o', 'n', '\n'] : List Char).length = 5 from rfl]
        rw [show jd.length + p2d.length + 12 - 5 = jd.length + p2d.length + 7 from by omega]
        exact stripFencesAux_closeTail jd p2d hrun hp2t _ (by omega)
      rw [show jd.length + p2d.length + 13 = (jd.length + p2d.length + 12) + 1 from by omega]
      exact hmid
    · intro c hc
      rcases List.mem_append.mp hc with h | h
      · exact Or.inl (List.mem_append_left _ h)
      · simp only [List.mem_cons, List.not_mem_nil, or_false] at h
        rcases h with rfl | rfl | rfl | rfl | rfl <;> simp
  · refine ⟨p1d, ?_, fun c hc => Or.inl hc⟩
    unfold stripFences
    have hlen : (p1d ++ (fenceOpen ++ '\n' :: (jd ++ (fenceNl ++ p2d)))).length =
        p1d.length + (jd.length + p2d.length + 12) := by
      simp only [List.length_append, List.length_cons, List.length_nil, fenceOpen, fenceNl]
      omega
    rw [hlen]
    rw [stripFencesAux_emit p1d hp1t _ (Or.inr hl) _]
    congr 1
    rw [show p1d.length + (jd.length + p2d.length + 12) - p1d.length =
      jd.length + p2d.length + 12 from by omega]
    have hmid : stripFencesAux (jd.length + p2d.length + 11) (jd ++ (fenceNl ++ p2d)) =
        jd ++ p2d :=
      stripFencesAux_closeTail jd p2d hrun hp2t _ (by omega)
    rw [show jd.length + p2d.length + 12 = (jd.length + p2d.length + 11) + 1 from by omega]
    exact hmid

lemma dropWhile_append_head (p : Char → Bool) (a b : List Char) (c : Char)
    (hb : b.head? = some c) (hc : p c = false) :
    List.dropWhile p (a ++ b) = List.dropWhile p a ++ b := by
  induction a with
  | nil =>
    cases b with
    | nil => simp at hb
    | cons d t =>
      simp only [Option.some.injEq, List.head?] at hb
      subst hb
      simp [List.dropWhile_cons, hc]
  | cons x t ih =>
    by_cases hx : p x
    · simp [List.dropWhile_cons, hx, ih]
    · simp [List.dropWhile_cons, hx]

lemma dropWhile_append_all (p : Char → Bool) (a b : List Char)
    (ha : ∀ c ∈ a, p c = true) :
    List.dropWhile p (a ++ b) = List.dropWhile p b := by
  induction a with
  | nil => simp
  | cons x t ih =>
    have hx : p x = true := ha x (List.mem_cons_self x t)
    simp only [List.cons_append, List.dropWhile_cons, hx, if_true]
    exact ih (fun c hcm => ha c (List.mem_cons_of_mem x hcm))

lemma trimChars_decomp (a js b : List Char) (c1 c2 : Char)
    (hh : js.head? = some c1) (h1 : isTrimWs c1 = false)
    (hl : js.getLast? = some c2) (h2 : isTrimWs c2 = false) :
    trimChars (a ++ js ++ b) =
      a.dropWhile isTrimWs ++ js ++ (b.reverse.dropWhile isTrimWs).reverse := by
  have hjs : (js ++ b).head? = some c1 := by
    cases js with
    | nil => simp at hh
    | cons d t => simpa using hh
  have hrev : js.reverse.head? = some c2 := by rw [List.head?_reverse]; exact hl
  have hrev2 : (js.reverse ++ (a.dropWhile isTrimWs).reverse).head? = some c2 := by
    cases hjr : js.reverse with
    | nil => rw [hjr] at hrev; simp at hrev
    | cons d t => rw [hjr] at hrev; simpa using hrev
  unfold trimChars
  rw [List.append_assoc, dropWhile_append_head isTrimWs a (js ++ b) c1 hjs h1]
  rw [← List.append_assoc, List.reverse_append, List.reverse_append]
  rw [dropWhile_append_head isTrimWs b.reverse (js.reverse ++ (a.dropWhile isTrimWs).reverse)
    c2 hrev2 h2]
  simp [List.reverse_append]

lemma trimChars_split (cs : List Char) :
    ∃ w1 w2, cs = w1 ++ (trimChars cs ++ w2) ∧
      (∀ c ∈ w1, isTrimWs c = true) ∧ ∀ c ∈ w2, isTrimWs c = true := by
  refine ⟨cs.takeWhile isTrimWs,
    ((cs.dropWhile isTrimWs).reverse.takeWhile isTrimWs).reverse, ?_, ?_, ?_⟩
  · conv_lhs => rw [← List.takeWhile_append_dropWhile isTrimWs cs]
    congr 1
    conv_lhs => rw [← List.reverse_reverse (cs.dropWhile isTrimWs),
      ← List.takeWhile_append_dropWhile isTrimWs (cs.dropWhile isTrimWs).reverse]
    rw [List.reverse_append]
    simp only [trimChars]
  · intro c hc
    exact List.mem_takeWhile_imp hc
  · intro c hc
    exact List.mem_takeWhile_imp (List.mem_reverse.mp hc)

lemma isTrimWs_not_special (c : Char) (h : isTrimWs c = true) :
    c ≠ '\x7b' ∧ c ≠ '\x7d' ∧ c ≠ '\x60' := by
  refine ⟨?_, ?_, ?_⟩ <;> intro he <;> subst he <;> exact absurd h (by decide)

lemma braceMatch_extract (a js b : List Char)
    (ha : '\x7b' ∉ a) (hb2 : '\x7d' ∉ b)
    (hh : js.head? = some '\x7b') (hl : js.getLast? = some '\x7d') :
    braceMatch (a ++ js ++ b) = some js := by
  have hane : ∀ c ∈ a, (fun c => !(c == '\x7b')) c = true := by
    intro c hcm
    have : c ≠ '\x7b' := fun he => ha (he ▸ hcm)
    simp [beq_eq_false_iff_ne.mpr this]
  have hbne : ∀ c ∈ b.reverse, (fun c => !(c == '\x7d')) c = true := by
    intro c hcm
    have : c ≠ '\x7d' := fun he => hb2 (he ▸ (List.mem_reverse.mp hcm))
    simp [beq_eq_false_iff_ne.mpr this]
  obtain ⟨t, rfl⟩ : ∃ t, js = '\x7b' :: t := by
    cases js with
    | nil => simp at hh
    | cons d u =>
      have hd : d = '\x7b' := by simpa using hh
      exact ⟨u, by rw [hd]⟩
  have hjrev : ('\x7b' :: t).reverse.head? = some '\x7d' := by
    rw [List.head?_reverse]; exact hl
  unfold braceMatch
  rw [List.append_assoc]
  rw [dropWhile_append_all _ a _ hane]
  rw [show ('\x7b' :: t) ++ b = '\x7b' :: (t ++ b) from rfl]
  rw [List.dropWhile_cons]
  simp only [beq_self_eq_true, Bool.not_true, Bool.false_eq_true, if_false]
  rw [show ('\x7b' :: (t ++ b)).reverse = b.reverse ++ ('\x7b' :: t).reverse by
    simp]
  rw [dropWhile_append_all _ b.reverse _ hbne]
  cases hjr : ('\x7b' :: t).reverse with
  | nil => simp at hjr
  | cons d u =>
    rw [hjr] at hjrev
    simp only [List.head?] at hjrev
    have hd : d = '\x7d' := by simpa using hjrev
    subst hd
    rw [List.dropWhile_cons]
    simp only [beq_self_eq_true, Bool.not_true, Bool.false_eq_true, if_false]
    rw [← hjr]
    simp

/-- C4 (amended): a well-formed JSON review payload `j` — an object literal
possibly surrounded by whitespace, containing no run of three backticks (the
cleaning regex itself rewrites such runs) — wrapped in `json` code fences,
surrounded by explanatory prose, or both at once, reconciles to the identical
value as the bare payload — provided the prose contains no curly braces and no
backticks, and the cleaned wrapped text does not itself strict-parse as JSON
(prose that contains braces redirects the greedy first-brace-to-last-brace
fallback and changes the result; see the counterexample). -/
theorem reconcile_fence_prose_roundtrip (j p1 p2 : String) (v : JsVal)
    (hj : jsonParseChars (trimChars j.data) = some v)
    (hhead : (trimChars j.data).head? = some '\x7b')
    (hlast : (trimChars j.data).getLast? = some '\x7d')
    (hj3 : ¬ fencePlain <:+: j.data)
    (hp1 : ∀ c ∈ p1.data, c ≠ '\x7b' ∧ c ≠ '\x7d' ∧ c ≠ '\x60')
    (hp2 : ∀ c ∈ p2.data, c ≠ '\x7b' ∧ c ≠ '\x7d' ∧ c ≠ '\x60')
    (hfallA : jsonParseChars (cleanContent (p1 ++ j ++ p2)) = none ∨
      cleanContent (p1 ++ j ++ p2) = trimChars j.data)
    (hfallB : jsonParseChars
        (cleanContent (p1 ++ ("```json\n" ++ j ++ "\n```") ++ p2)) = none ∨
      cleanContent (p1 ++ ("```json\n" ++ j ++ "\n```") ++ p2) = trimChars j.data) :
    reconcile j = v ∧
      reconcile ("```json\n" ++ j ++ "\n```") = v ∧
      reconcile (p1 ++ j ++ p2) = v ∧
      reconcile (p1 ++ ("```json\n" ++ j ++ "\n```") ++ p2) = v := by
  obtain ⟨w1, w2, hsplit, hw1, hw2⟩ := trimChars_split j.data
  have hwsOpen : isTrimWs '\x7b' = false := rfl
  have hwsClose : isTrimWs '\x7d' = false := rfl
  have hstripj : stripFences j.data = j.data := by
    unfold stripFences
    exact stripFencesAux_id j.data hj3 _ le_rfl
  have hcj : cleanContent j = trimChars j.data := by
    unfold cleanContent
    rw [hstripj]
  have c1 : reconcile j = v := by
    simp only [reconcile, hcj, hj]
  have hwdata : ("```json\n" ++ j ++ "\n```").data =
      fenceOpen ++ '\n' :: (j.data ++ fenceNl) := by
    rw [String.data_append, String.data_append]
    rw [show "```json\n".data = fenceOpen ++ ['\n'] from rfl]
    rw [show "\n```".data = fenceNl from rfl]
    simp [List.append_assoc]
  have c2 : reconcile ("```json\n" ++ j ++ "\n```") = v := by
    have hfe : cleanContent ("```json\n" ++ j ++ "\n```") = trimChars j.data := by
      unfold cleanContent
      rw [hwdata, stripFences_fenced j.data hj3]
    simp only [reconcile, hfe, hj]
  have hp1t : '\x60' ∉ p1.data := fun hm => (hp1 _ hm).2.2 rfl
  have hp2t : '\x60' ∉ p2.data := fun hm => (hp2 _ hm).2.2 rfl
  have hdataA : (p1 ++ j ++ p2).data = p1.data ++ j.data ++ p2.data := by
    rw [String.data_append, String.data_append]
  have hnorunA : ¬ fencePlain <:+: (p1.data ++ j.data ++ p2.data) := by
    intro hr
    have hr2 : fencePlain <:+: p1.data ++ (j.data ++ p2.data) := by
      simpa [List.append_assoc] using hr
    exact hj3 (run_drop_right _ _ hp2t (run_drop_left _ _ hp1t hr2))
  have hcleanA : cleanContent (p1 ++ j ++ p2) =
      (p1.data ++ w1).dropWhile isTrimWs ++ trimChars j.data ++
        ((w2 ++ p2.data).reverse.dropWhile isTrimWs).reverse := by
    unfold cleanContent
    rw [hdataA]
    rw [show stripFences (p1.data ++ j.data ++ p2.data) = p1.data ++ j.data ++ p2.data by
      unfold stripFences
      exact stripFencesAux_id _ hnorunA _ le_rfl]
    rw [show p1.data ++ j.data ++ p2.data =
        (p1.data ++ w1) ++ trimChars j.data ++ (w2 ++ p2.data) by
      conv_lhs => rw [hsplit]
      simp [List.append_assoc]]
    exact trimChars_decomp _ _ _ '\x7b' '\x7d' hhead hwsOpen hlast hwsClose
  have c3 : reconcile (p1 ++ j ++ p2) = v := by
    rcases hfallA with hnone | heq
    · have hbm : braceMatch (cleanContent (p1 ++ j ++ p2)) = some (trimChars j.data) := by
        rw [hcleanA]
        apply braceMatch_extract
        · intro hm
          have hmm : '\x7b' ∈ p1.data ++ w1 := List.Sublist.mem hm (List.dropWhile_sublist _)
          rcases List.mem_append.mp hmm with h | h
          · exact (hp1 _ h).1 rfl
          · exact (isTrimWs_not_special _ (hw1 _ h)).1 rfl
        · intro hm
          have hmm : '\x7d' ∈ w2 ++ p2.data := by
            have h1 := List.mem_reverse.mp hm
            have h2 := List.Sublist.mem h1 (List.dropWhile_sublist _)
            exact List.mem_reverse.mp h2
          rcases List.mem_append.mp hmm with h | h
          · exact (isTrimWs_not_special _ (hw2 _ h)).2.1 rfl
          · exact (hp2 _ h).2.1 rfl
        · exact hhead
        · exact hlast
      simp only [reconcile, hnone, hbm, hj]
    · simp only [reconcile, heq, hj]
  have hdataB : (p1 ++ ("```json\n" ++ j ++ "\n```") ++ p2).data =
      p1.data ++ (fenceOpen ++ '\n' :: (j.data ++ (fenceNl ++ p2.data))) := by
    rw [String.data_append, String.data_append, hwdata]
    simp [List.append_assoc]
  have c4 : reconcile (p1 ++ ("```json\n" ++ j ++ "\n```") ++ p2) = v := by
    obtain ⟨A, hA, hAmem⟩ := stripFences_combined p1.data j.data p2.data hp1t hp2t hj3
    have hcleanB : cleanContent (p1 ++ ("```json\n" ++ j ++ "\n```") ++ p2) =
        (A ++ w1).dropWhile isTrimWs ++ trimChars j.data ++
          ((w2 ++ p2.data).reverse.dropWhile isTrimWs).reverse := by
      unfold cleanContent
      rw [hdataB, hA]
      rw [show A ++ (j.data ++ p2.data) =
          (A ++ w1) ++ trimChars j.data ++ (w2 ++ p2.data) by
        conv_lhs => rw [hsplit]
        simp [List.append_assoc]]
      exact trimChars_decomp _ _ _ '\x7b' '\x7d' hhead hwsOpen hlast hwsClose
    rcases hfallB with hnone | heq
    · have hbm : braceMatch (cleanContent (p1 ++ ("```json\n" ++ j ++ "\n```") ++ p2)) =
          some (trimChars j.data) := by
        rw [hcleanB]
        apply braceMatch_extract
        · intro hm
          have hmm : '\x7b' ∈ A ++ w1 := List.Sublist.mem hm (List.dropWhile_sublist _)
          rcases List.mem_append.mp hmm with h | h
          · rcases hAmem _ h with h' | h' | h' | h' | h' | h'
            · exact (hp1 _ h').1 rfl
            all_goals exact absurd h' (by decide)
          · exact (isTrimWs_not_special _ (hw1 _ h)).1 rfl
        · intro hm
          have hmm : '\x7d' ∈ w2 ++ p2.data := by
            have h1 := List.mem_reverse.mp hm
            have h2 := List.Sublist.mem h1 (List.dropWhile_sublist _)
            exact List.mem_reverse.mp h2
          rcases List.mem_append.mp hmm with h | h
          · exact (isTrimWs_not_special _ (hw2 _ h)).2.1 rfl
          · exact (hp2 _ h).2.1 rfl
        · exact hhead
        · exact hlast
      simp only [reconcile, hnone, hbm, hj]
    · simp only [reconcile, heq, hj]
  exact ⟨c1, c2, c3, c4⟩

set_option maxRecDepth 100000 in
/-- C4 witness: the round-trip applied to a concrete whitespace-padded review
payload, bare, in code fences, in brace-free prose, and in prose around a
fenced block (the spec's combined scenario). -/
theorem reconcile_fence_prose_roundtrip_witness :
    reconcile (" " ++ sampleReviewJson ++ "\n") = sampleReviewVal ∧
      reconcile ("```json\n" ++ (" " ++ sampleReviewJson ++ "\n") ++ "\n```") =
        sampleReviewVal ∧
      reconcile ("Here you go:\n" ++ (" " ++ sampleReviewJson ++ "\n") ++ "\nThanks!") =
        sampleReviewVal ∧
      reconcile ("Here you go:\n" ++
          ("```json\n" ++ (" " ++ sampleReviewJson ++ "\n") ++ "\n```") ++ "\nThanks!") =
        sampleReviewVal :=
  reconcile_fence_prose_roundtrip (" " ++ sampleReviewJson ++ "\n") "Here you go:\n" "\nThanks!"
    sampleReviewVal (by rfl) (by rfl) (by rfl) (noTick_noRun _ (by decide)) (by decide)
    (by decide) (Or.inl (by rfl)) (Or.inl (by rfl))

set_option maxRecDepth 100000 in
/-- C4 counterexample: explanatory prose containing a brace pulls the greedy
first-`\x7b`-to-last-`\x7d` fallback off the payload, so the wrapped reply
reconciles to the empty review list instead of the payload's review list —
prose wrapping does not always preserve the result. -/
theorem prose_with_braces_changes_result_cx :
    reconcile ("Here is the JSON \x7bas requested\x7d:\n" ++ sampleReviewJson) =
        emptyReviewsObj ∧
      reconcile sampleReviewJson = sampleReviewVal ∧
      reconcile ("Here is the JSON \x7bas requested\x7d:\n" ++ sampleReviewJson) ≠
        reconcile sampleReviewJson := by
  refine ⟨rfl, rfl, ?_⟩
  rw [show reconcile ("Here is the JSON \x7bas requested\x7d:\n" ++ sampleReviewJson) =
    emptyReviewsObj from rfl]
  rw [show reconcile sampleReviewJson = sampleReviewVal from rfl]
  simp [emptyReviewsObj, sampleReviewVal]
